import Mathlib

/-!
Shallow embedding of the inventory / order-fulfillment core of the
SupplyChainSystem repository (warehouse.py, Distributor.py,
FinancialBase.py, final_SCMS.py), with theorems checking the
natural-language specification against the code.

A Python `dict` with string keys and integer values is embedded as an
association list `List (String × Int)` whose keys are unique
(Python dicts cannot hold a key twice) and whose order records the
dict's insertion order.  `pyGet`, `pySet` and `pyDel` mirror
`d[k]` / `d.get(k, 0)`, `d[k] = v` (update in place, append if new)
and `del d[k]`.  A raised Python exception is embedded as an explicit
error value returned next to the (unchanged, since every raise in the
source happens before any mutation) state.
-/

namespace SupplyChain

/-- A Python dict from product id to quantity, as an insertion-ordered
association list. -/
abbrev Dict := List (String × Int)

/-- `pyGet d k` embeds the Python lookup `d[k]` / `k in d`. -/
def pyGet : Dict → String → Option Int
  | [], _ => none
  | (k, v) :: rest, key => if k = key then some v else pyGet rest key

/-- `pyGetD d k` embeds `d.get(k, 0)`. -/
def pyGetD (d : Dict) (k : String) : Int := (pyGet d k).getD 0

/-- `pySet d k v` embeds `d[k] = v`: the first entry for `k` is updated
in place; if `k` is absent the new entry is appended (Python dicts keep
insertion order). -/
def pySet : Dict → String → Int → Dict
  | [], key, v => [(key, v)]
  | (k, w) :: rest, key, v =>
      if k = key then (key, v) :: rest else (k, w) :: pySet rest key v

/-- `pyDel d k` embeds `del d[k]` (keys are unique, so removing the
first entry removes the key). -/
def pyDel : Dict → String → Dict
  | [], _ => []
  | (k, v) :: rest, key => if k = key then rest else (k, v) :: pyDel rest key

/-- `sum(d.values())`. -/
def totalQuantity (d : Dict) : Int := (d.map Prod.snd).sum

/-- The exceptions raised by the ledger methods in `warehouse.py`:
`ValueError("Quantity must be positive.")`,
`Exception("Not enough space in the storage unit.")`,
`Exception("Product not found.")`, `Exception("Not enough stock.")`. -/
inductive LedgerError
  | invalidQuantity
  | capacityExceeded
  | productNotFound
  | insufficientStock
deriving DecidableEq

/-- `StorageUnit.store_product` (warehouse.py lines 17-23).  The second
component records the raised exception, if any; on a raise the
inventory is unchanged because the single mutation is the last line. -/
def store_product (capacity : Int) (inventory : Dict) (product_id : String)
    (quantity : Int) : Dict × Option LedgerError :=
  if quantity ≤ 0 then (inventory, some .invalidQuantity)
  else if totalQuantity inventory + quantity > capacity then
    (inventory, some .capacityExceeded)
  else
    (pySet inventory product_id (pyGetD inventory product_id + quantity), none)

/-- `StorageUnit.retrieve_product` (warehouse.py lines 25-32).  Note the
source has no check that `quantity` is positive. -/
def retrieve_product (inventory : Dict) (product_id : String)
    (quantity : Int) : Dict × Option LedgerError :=
  match pyGet inventory product_id with
  | none => (inventory, some .productNotFound)
  | some held =>
    if quantity > held then (inventory, some .insufficientStock)
    else
      let inv1 := pySet inventory product_id (held - quantity)
      if held - quantity = 0 then (pyDel inv1 product_id, none)
      else (inv1, none)

/-- In Python, `ValueError` and the plain `Exception`s raised by the
ledger all derive from `Exception`, so an `except Exception` clause
catches each of them. -/
def caught_by_except_clause : LedgerError → Bool
  | .invalidQuantity => true
  | .capacityExceeded => true
  | .productNotFound => true
  | .insufficientStock => true

/-- `Warehouse.store_product` (warehouse.py lines 40-45): the call is
wrapped in `try ... except Exception`, which prints and swallows the
error; the method returns `None` either way. -/
def warehouse_store (capacity : Int) (inventory : Dict) (product_id : String)
    (quantity : Int) : Dict × Option LedgerError :=
  let r := store_product capacity inventory product_id quantity
  match r.2 with
  | none => (r.1, none)
  | some e => if caught_by_except_clause e then (r.1, none) else (r.1, some e)

/-- `Warehouse.retrieve_product` (warehouse.py lines 47-52), same
try/except wrapper. -/
def warehouse_retrieve (inventory : Dict) (product_id : String)
    (quantity : Int) : Dict × Option LedgerError :=
  let r := retrieve_product inventory product_id quantity
  match r.2 with
  | none => (r.1, none)
  | some e => if caught_by_except_clause e then (r.1, none) else (r.1, some e)

/-! ### Basic dict lemmas -/

theorem pyGet_pySet_self (d : Dict) (k : String) (v : Int) :
    pyGet (pySet d k v) k = some v := by
  induction d with
  | nil => simp [pySet, pyGet]
  | cons hd tl ih =>
    obtain ⟨a, b⟩ := hd
    by_cases h : a = k
    · simp [pySet, h, pyGet]
    · simp [pySet, h, pyGet, ih]

theorem pyGet_pySet_ne (d : Dict) (k k' : String) (v : Int) (h : k' ≠ k) :
    pyGet (pySet d k v) k' = pyGet d k' := by
  induction d with
  | nil => simp [pySet, pyGet, Ne.symm h]
  | cons hd tl ih =>
    obtain ⟨a, b⟩ := hd
    by_cases hak : a = k
    · subst hak
      simp [pySet, pyGet, Ne.symm h]
    · by_cases hak' : a = k'
      · simp [pySet, hak, pyGet, hak', h]
      · simp [pySet, hak, pyGet, hak', ih]

theorem pyGet_pyDel_ne (d : Dict) (k k' : String) (h : k' ≠ k) :
    pyGet (pyDel d k) k' = pyGet d k' := by
  induction d with
  | nil => simp [pyDel]
  | cons hd tl ih =>
    obtain ⟨a, b⟩ := hd
    by_cases hak : a = k
    · subst hak
      simp [pyDel, pyGet, Ne.symm h]
    · by_cases hak' : a = k'
      · simp [pyDel, hak, pyGet, hak', h]
      · simp [pyDel, hak, pyGet, hak', ih]

/-- With unique keys, deleting a key makes it absent. -/
theorem pyGet_pyDel_self (d : Dict) (k : String)
    (hnd : (d.map Prod.fst).Nodup) : pyGet (pyDel d k) k = none := by
  induction d with
  | nil => simp [pyDel, pyGet]
  | cons hd tl ih =>
    obtain ⟨a, b⟩ := hd
    simp only [List.map_cons, List.nodup_cons] at hnd
    by_cases hak : a = k
    · subst hak
      simp only [pyDel, if_pos rfl]
      cases hget : pyGet tl a with
      | none => exact hget
      | some v =>
        exfalso
        apply hnd.1
        clear ih hnd
        induction tl with
        | nil => simp [pyGet] at hget
        | cons hd2 tl2 ih2 =>
          obtain ⟨c, e⟩ := hd2
          simp only [pyGet] at hget
          by_cases hca : c = a
          · simp [hca]
          · simp only [if_neg hca] at hget
            simp [ih2 hget]
    · simp [pyDel, hak, pyGet, hak, ih hnd.2]

theorem totalQuantity_pySet (d : Dict) (k : String) (v : Int) :
    totalQuantity (pySet d k v) = totalQuantity d - pyGetD d k + v := by
  induction d with
  | nil => simp [pySet, totalQuantity, pyGetD, pyGet]
  | cons hd tl ih =>
    obtain ⟨a, b⟩ := hd
    by_cases hak : a = k
    · simp [pySet, hak, totalQuantity, pyGetD, pyGet]
      ring
    · simp only [pySet, if_neg hak, totalQuantity, List.map_cons, List.sum_cons,
        pyGetD, pyGet, if_neg hak] at *
      omega

theorem totalQuantity_pyDel (d : Dict) (k : String) :
    totalQuantity (pyDel d k) = totalQuantity d - pyGetD d k := by
  induction d with
  | nil => simp [pyDel, totalQuantity, pyGetD, pyGet]
  | cons hd tl ih =>
    obtain ⟨a, b⟩ := hd
    by_cases hak : a = k
    · simp [pyDel, hak, totalQuantity, pyGetD, pyGet]
    · simp only [pyDel, if_neg hak, totalQuantity, List.map_cons, List.sum_cons,
        pyGetD, pyGet, if_neg hak] at *
      omega

theorem pyGet_mem (d : Dict) (k : String) (v : Int) (h : pyGet d k = some v) :
    (k, v) ∈ d := by
  induction d with
  | nil => simp [pyGet] at h
  | cons hd tl ih =>
    obtain ⟨a, b⟩ := hd
    simp only [pyGet] at h
    by_cases hak : a = k
    · rw [if_pos hak] at h
      obtain rfl : b = v := Option.some.inj h
      rw [← hak]
      exact List.mem_cons_self _ _
    · rw [if_neg hak] at h
      exact List.mem_cons_of_mem _ (ih h)

/-- Writing back the value already stored at a key is the identity. -/
theorem pySet_get_self (d : Dict) (k : String) (v : Int)
    (h : pyGet d k = some v) : pySet d k v = d := by
  induction d with
  | nil => simp [pyGet] at h
  | cons hd tl ih =>
    obtain ⟨a, b⟩ := hd
    simp only [pyGet] at h
    by_cases hak : a = k
    · rw [if_pos hak] at h
      obtain rfl : b = v := Option.some.inj h
      simp [pySet, hak]
    · rw [if_neg hak] at h
      simp [pySet, hak, ih h]

theorem pySet_pySet (d : Dict) (k : String) (v w : Int) :
    pySet (pySet d k v) k w = pySet d k w := by
  induction d with
  | nil => simp [pySet]
  | cons hd tl ih =>
    obtain ⟨a, b⟩ := hd
    by_cases hak : a = k
    · simp [pySet, hak]
    · simp [pySet, hak, ih]

/-- Deleting a freshly appended key restores the original dict. -/
theorem pyDel_pySet_of_absent (d : Dict) (k : String) (v : Int)
    (h : pyGet d k = none) : pyDel (pySet d k v) k = d := by
  induction d with
  | nil => simp [pySet, pyDel]
  | cons hd tl ih =>
    obtain ⟨a, b⟩ := hd
    simp only [pyGet] at h
    by_cases hak : a = k
    · simp [hak] at h
    · simp only [if_neg hak] at h
      simp [pySet, hak, pyDel, ih h]

theorem nodup_keys_pySet (d : Dict) (k : String) (v : Int)
    (h : (d.map Prod.fst).Nodup) : ((pySet d k v).map Prod.fst).Nodup := by
  induction d with
  | nil => simp [pySet]
  | cons hd tl ih =>
    obtain ⟨a, b⟩ := hd
    simp only [List.map_cons, List.nodup_cons] at h
    by_cases hak : a = k
    · subst hak
      simpa [pySet, List.nodup_cons] using h
    · simp only [pySet, if_neg hak, List.map_cons, List.nodup_cons]
      refine ⟨fun hmem => ?_, ih h.2⟩
      apply h.1
      clear ih h
      induction tl with
      | nil =>
        simp [pySet] at hmem
        exact absurd hmem hak
      | cons hd2 tl2 ih2 =>
        obtain ⟨c, e⟩ := hd2
        by_cases hck : c = k
        · simpa [pySet, hck] using hmem
        · simp only [pySet, if_neg hck, List.map_cons, List.mem_cons] at hmem ⊢
          exact hmem.imp id ih2

theorem nodup_keys_pyDel (d : Dict) (k : String)
    (h : (d.map Prod.fst).Nodup) : ((pyDel d k).map Prod.fst).Nodup := by
  induction d with
  | nil => simp [pyDel]
  | cons hd tl ih =>
    obtain ⟨a, b⟩ := hd
    simp only [List.map_cons, List.nodup_cons] at h
    by_cases hak : a = k
    · simpa [pyDel, hak] using h.2
    · simp only [pyDel, if_neg hak, List.map_cons, List.nodup_cons]
      refine ⟨fun hmem => ?_, ih h.2⟩
      apply h.1
      clear ih h
      induction tl with
      | nil => simp [pyDel] at hmem
      | cons hd2 tl2 ih2 =>
        obtain ⟨c, e⟩ := hd2
        by_cases hck : c = k
        · simp only [pyDel, if_pos hck, List.map_cons, List.mem_cons]
          simp only [pyDel, if_pos hck] at hmem
          exact Or.inr hmem
        · simp only [pyDel, if_neg hck, List.map_cons, List.mem_cons] at hmem ⊢
          exact hmem.imp id ih2

theorem mem_pySet (d : Dict) (k : String) (v : Int) (kv : String × Int)
    (h : kv ∈ pySet d k v) : kv = (k, v) ∨ kv ∈ d := by
  induction d with
  | nil => simpa [pySet] using h
  | cons hd tl ih =>
    obtain ⟨a, b⟩ := hd
    by_cases hak : a = k
    · simp only [pySet, if_pos hak, List.mem_cons] at h
      rcases h with h | h
      · exact Or.inl h
      · exact Or.inr (List.mem_cons_of_mem _ h)
    · simp only [pySet, if_neg hak, List.mem_cons] at h
      rcases h with h | h
      · exact Or.inr (h ▸ List.mem_cons_self _ _)
      · rcases ih h with h2 | h2
        · exact Or.inl h2
        · exact Or.inr (List.mem_cons_of_mem _ h2)

theorem mem_pyDel (d : Dict) (k : String) (kv : String × Int)
    (h : kv ∈ pyDel d k) : kv ∈ d := by
  induction d with
  | nil => simp [pyDel] at h
  | cons hd tl ih =>
    obtain ⟨a, b⟩ := hd
    by_cases hak : a = k
    · simp only [pyDel, if_pos hak] at h
      exact List.mem_cons_of_mem _ h
    · simp only [pyDel, if_neg hak, List.mem_cons] at h
      rcases h with h | h
      · exact h ▸ List.mem_cons_self _ _
      · exact List.mem_cons_of_mem _ (ih h)

/-- A key the dict does not hold has no entry in the list. -/
theorem not_mem_of_pyGet_none (l : Dict) (k : String) (v : Int)
    (h : pyGet l k = none) : (k, v) ∉ l := by
  induction l with
  | nil => simp
  | cons hd tl ih =>
    obtain ⟨a, b⟩ := hd
    simp only [pyGet] at h
    by_cases hak : a = k
    · rw [if_pos hak] at h
      cases h
    · rw [if_neg hak] at h
      simp only [List.mem_cons]
      rintro (heq | hmem)
      · injection heq with h1 h2
        exact hak h1.symm
      · exact ih h hmem

/-- With unique keys, a member whose key was just deleted cannot remain. -/
theorem not_mem_pyDel_self (d : Dict) (k : String) (v : Int)
    (hnd : (d.map Prod.fst).Nodup) : (k, v) ∉ pyDel d k :=
  not_mem_of_pyGet_none _ _ _ (pyGet_pyDel_self d k hnd)

/-! ### Distributor.py (dict-based distributor) -/

/-- `Distributor.receive_product` (Distributor.py lines 25-36): rejects a
non-positive quantity (print and return, no mutation), otherwise adds the
quantity to the entry, creating it if absent. -/
def dist_receive_product (inventory : Dict) (product_id : String)
    (product_quantity : Int) : Dict :=
  if product_quantity ≤ 0 then inventory
  else if (pyGet inventory product_id).isSome then
    pySet inventory product_id (pyGetD inventory product_id + product_quantity)
  else pySet inventory product_id product_quantity

/-- `Distributor.distribute_product` (Distributor.py lines 12-23): if the
product is held and the quantity does not exceed the held amount, the
source entry is decremented, the retailer receives the quantity, and a
source entry left at 0 is deleted; otherwise only a message is printed.
Returns (distributor inventory, retailer inventory). -/
def distribute_product (dist retailer : Dict) (product_id : String)
    (product_quantity : Int) : Dict × Dict :=
  match pyGet dist product_id with
  | some held =>
    if product_quantity ≤ held then
      let dist1 := pySet dist product_id (held - product_quantity)
      let retailer1 := dist_receive_product retailer product_id product_quantity
      if pyGetD dist1 product_id = 0 then (pyDel dist1 product_id, retailer1)
      else (dist1, retailer1)
    else (dist, retailer)
  | none => (dist, retailer)

/-! ### FinancialBase.py (list-based distributor, lines 455-504) -/

/-- Python `list.remove(x)` on a list that contains `x`: drops the first
occurrence.  (On a missing element Python raises; the only caller below
always has enough occurrences.) -/
def listRemoveFirst : List String → String → List String
  | [], _ => []
  | x :: rest, car => if x = car then rest else x :: listRemoveFirst rest car

/-- The `for _ in range(quantity)` loop of
`Distributor.distribute_product` (FinancialBase.py lines 476-478): each
pass removes one occurrence of `car` from the distributor inventory and
appends it to the retailer stock (`Retailer.receive_product` →
`Store.add_car`, lines 357-360 and 422-423). -/
def fb_distribute_loop : Nat → List String → List String → String →
    List String × List String
  | 0, inv, stock, _ => (inv, stock)
  | Nat.succ n, inv, stock, car =>
      fb_distribute_loop n (listRemoveFirst inv car) (stock ++ [car]) car

/-- `Distributor.distribute_product` (FinancialBase.py lines 472-487):
checks `inventory.count(car) >= quantity`; on success moves the cars one
by one and sets the order status to Shipped
(`Order.update_order_status`, lines 519-521, assigns unconditionally);
on failure prints and sets the status to Cancelled.  The whole body sits
in `try ... except`, so no exception escapes; the triple returned is
(distributor inventory, retailer stock, order status). -/
def fb_distribute_product (inv stock : List String) (car : String)
    (quantity : Nat) : List String × List String × String :=
  if quantity ≤ inv.count car then
    let moved := fb_distribute_loop quantity inv stock car
    (moved.1, moved.2, "Shipped")
  else (inv, stock, "Cancelled")

/-! ### final_SCMS.py Order (lines 415-440) -/

/-- `Order` of final_SCMS.py: id, product reference, quantity, unit
price (a Python float, embedded as a rational), status string. -/
structure Order where
  order_id : String
  product : String
  quantity : Int
  price_per_unit : Rat
  status : String
deriving DecidableEq

/-- `Order.__init__` (final_SCMS.py lines 416-424): status starts as
"Pending". -/
def Order.init (order_id product : String) (quantity : Int)
    (price_per_unit : Rat) : Order :=
  { order_id := order_id, product := product, quantity := quantity,
    price_per_unit := price_per_unit, status := "Pending" }

/-- `Order.get_order_value` (final_SCMS.py lines 433-435). -/
def get_order_value (o : Order) : Rat := o.quantity * o.price_per_unit

/-- The status strings accepted by `Order.update_status`
(final_SCMS.py line 428). -/
def valid_statuses : List String :=
  ["Pending", "Processing", "Shipped", "Delivered", "Cancelled"]

/-- `Order.update_status` (final_SCMS.py lines 426-431): raises
`ValueError` when the new status is not in `valid_statuses`, otherwise
assigns it — there is no check against the current status. -/
def update_status (status new_status : String) : String × Bool :=
  if new_status ∈ valid_statuses then (new_status, false)
  else (status, true)

/-- The transition table of the specification (§4.2): which statuses are
reachable in one step from a given status.  This is spec text, stated
here only to compare `update_status` against it. -/
def spec_transition_allowed (current new_status : String) : Bool :=
  (current = "Pending" ∧ (new_status = "Processing" ∨ new_status = "Cancelled")) ∨
  (current = "Processing" ∧ (new_status = "Shipped" ∨ new_status = "Cancelled")) ∨
  (current = "Shipped" ∧ new_status = "Delivered")

/-! ### final_SCMS.py ExpiryManager (lines 348-374) -/

/-- One warehouse inventory entry as the ExpiryManager reads it: a dict
with a `quantity` and, optionally, an `expiry` date.  Dates are embedded
as integers ordered like dates.  A plain integer entry (the other shape
the source tolerates) behaves like `expiry := none` for removal; this
embedding keeps all entries in dict shape so that
`is_inventory_full` sums one uniform field. -/
structure StockItem where
  quantity : Int
  expiry : Option Int
deriving DecidableEq

/-- The warehouse inventory seen by ExpiryManager. -/
abbrev ExpDict := List (String × StockItem)

/-- Total quantity of such an inventory. -/
def expTotal (inv : ExpDict) : Int := (inv.map (fun kv => kv.2.quantity)).sum

/-- `ExpiryManager.is_inventory_full` (final_SCMS.py lines 353-357): an
empty inventory is never full; otherwise full means total ≥ capacity. -/
def is_inventory_full (inv : ExpDict) (capacity : Int) : Bool :=
  if inv.isEmpty then false else expTotal inv ≥ capacity

/-- `item['expiry'] < self.today_date` guarded by the entry having an
expiry (final_SCMS.py line 366). -/
def entry_is_expired (today : Int) (item : StockItem) : Bool :=
  match item.expiry with
  | some e => e < today
  | none => false

/-- `ExpiryManager.remove_expired_if_full` (final_SCMS.py lines 359-374).
The Python method returns `None` in every branch; removed product ids
are only printed.  The triple is (Python return value, inventory after
the call, list of product ids printed as removed, in inventory order). -/
def remove_expired_if_full (inv : ExpDict) (capacity today : Int) :
    Unit × ExpDict × List String :=
  if is_inventory_full inv capacity = false then (Unit.unit, inv, [])
  else
    (Unit.unit,
     inv.filter (fun kv => ! entry_is_expired today kv.2),
     (inv.filter (fun kv => entry_is_expired today kv.2)).map Prod.fst)

/-! ### Operation sequences on a ledger (for the reachability invariant) -/

/-- One call on a `StorageUnit` ledger. -/
inductive LedgerOp
  | store (product_id : String) (quantity : Int)
  | retrieve (product_id : String) (quantity : Int)
deriving DecidableEq

/-- Apply one call; a raised exception leaves the inventory unchanged. -/
def applyOp (capacity : Int) (d : Dict) : LedgerOp → Dict
  | .store p q => (store_product capacity d p q).1
  | .retrieve p q => (retrieve_product d p q).1

/-- Apply a sequence of calls, starting from `d`. -/
def runOps (capacity : Int) (d : Dict) : List LedgerOp → Dict
  | [] => d
  | op :: rest => runOps capacity (applyOp capacity d op) rest

/-- A retrieve call with a positive quantity (the store guard already
rejects non-positive quantities; retrieve has no such guard). -/
def opPositive : LedgerOp → Prop
  | .store _ _ => True
  | .retrieve _ q => 0 < q

/-!
## Claim theorems
-/

/-- C1: `store(productId, quantity)` fails with InvalidQuantity when the
quantity is non-positive and with CapacityExceeded when the current
total plus the quantity exceeds the capacity, leaving the ledger
unchanged in both failure cases; otherwise it succeeds, increments (or
creates) the entry for the product by exactly the quantity and touches
no other entry. -/
theorem store_product_spec (capacity : Int) (d : Dict) (p : String) (q : Int) :
    (q ≤ 0 → store_product capacity d p q = (d, some .invalidQuantity)) ∧
    (0 < q → totalQuantity d + q > capacity →
      store_product capacity d p q = (d, some .capacityExceeded)) ∧
    (0 < q → totalQuantity d + q ≤ capacity →
      (store_product capacity d p q).2 = none ∧
      pyGet (store_product capacity d p q).1 p = some (pyGetD d p + q) ∧
      ∀ k, k ≠ p → pyGet (store_product capacity d p q).1 k = pyGet d k) := by
  refine ⟨fun hq => ?_, fun hq hover => ?_, fun hq hfit => ?_⟩
  · simp [store_product, hq]
  · simp [store_product, not_le.mpr hq, hover]
  · have hguard : ¬ totalQuantity d + q > capacity := not_lt.mpr hfit
    refine ⟨?_, ?_, fun k hk => ?_⟩
    · simp [store_product, not_le.mpr hq, hguard]
    · simp [store_product, not_le.mpr hq, hguard, pyGet_pySet_self]
    · simp [store_product, not_le.mpr hq, hguard, pyGet_pySet_ne _ _ _ _ hk]

/-- C1 witness: the spec scenario — capacity 100, `store(p1, 60)`
succeeds, a following `store(p1, 50)` fails with CapacityExceeded and
the ledger still holds 60. -/
theorem store_product_spec_witness :
    (store_product 100 [] "p1" 60).2 = none ∧
    pyGet (store_product 100 [] "p1" 60).1 "p1" = some 60 ∧
    store_product 100 [("p1", 60)] "p1" 50 =
      ([("p1", 60)], some LedgerError.capacityExceeded) := by
  have h1 := (store_product_spec 100 [] "p1" 60).2.2 (by decide) (by decide)
  have h2 := (store_product_spec 100 [("p1", 60)] "p1" 50).2.1 (by decide) (by decide)
  refine ⟨h1.1, ?_, h2⟩
  have h60 := h1.2.1
  rw [show pyGetD ([] : Dict) "p1" + 60 = (60 : Int) from by decide] at h60
  exact h60

/-- C2 counterexample: contrary to the claim, `retrieve_product` has no
InvalidQuantity check: retrieving a non-positive quantity from a held
product raises nothing, and a negative quantity even increases the
entry (here from 5 to 8). -/
theorem retrieve_product_negative_accepted :
    (retrieve_product [("p1", 5)] "p1" (-3)).2 = none ∧
    pyGet (retrieve_product [("p1", 5)] "p1" (-3)).1 "p1" = some 8 := by decide

/-- C2 amended: `retrieve(productId, quantity)` fails with
ProductNotFound if the product is absent and with InsufficientStock if
the quantity exceeds the held amount, leaving the ledger unchanged;
otherwise (with no check that the quantity is positive) it decrements
the entry by the quantity, removes the entry when the result is 0, and
touches no other entry.  The dict keys are unique. -/
theorem retrieve_product_spec (d : Dict) (p : String) (q : Int)
    (hnd : (d.map Prod.fst).Nodup) :
    (pyGet d p = none → retrieve_product d p q = (d, some .productNotFound)) ∧
    (∀ held, pyGet d p = some held → q > held →
      retrieve_product d p q = (d, some .insufficientStock)) ∧
    (∀ held, pyGet d p = some held → q ≤ held →
      (retrieve_product d p q).2 = none ∧
      (held - q = 0 → pyGet (retrieve_product d p q).1 p = none) ∧
      (held - q ≠ 0 → pyGet (retrieve_product d p q).1 p = some (held - q)) ∧
      ∀ k, k ≠ p → pyGet (retrieve_product d p q).1 k = pyGet d k) := by
  refine ⟨fun habs => ?_, fun held hheld hgt => ?_, fun held hheld hle => ?_⟩
  · simp [retrieve_product, habs]
  · simp [retrieve_product, hheld, hgt]
  · have hguard : ¬ q > held := not_lt.mpr hle
    by_cases hz : held - q = 0
    · refine ⟨?_, fun _ => ?_, fun hz2 => absurd hz hz2, fun k hk => ?_⟩
      · simp [retrieve_product, hheld, hguard, hz]
      · simp only [retrieve_product, hheld, if_neg hguard, if_pos hz]
        exact pyGet_pyDel_self _ _ (nodup_keys_pySet d p _ hnd)
      · simp only [retrieve_product, hheld, if_neg hguard, if_pos hz]
        rw [pyGet_pyDel_ne _ _ _ hk, pyGet_pySet_ne _ _ _ _ hk]
    · refine ⟨?_, fun hz2 => absurd hz2 hz, fun _ => ?_, fun k hk => ?_⟩
      · simp [retrieve_product, hheld, hguard, hz]
      · simp only [retrieve_product, hheld, if_neg hguard, if_neg hz]
        exact pyGet_pySet_self _ _ _
      · simp only [retrieve_product, hheld, if_neg hguard, if_neg hz]
        exact pyGet_pySet_ne _ _ _ _ hk

/-- C2 witness: retrieving the full held amount succeeds and removes
the entry; retrieving from an absent product fails with
ProductNotFound. -/
theorem retrieve_product_spec_witness :
    (retrieve_product [("p1", 5)] "p1" 5).2 = none ∧
    pyGet (retrieve_product [("p1", 5)] "p1" 5).1 "p1" = none ∧
    retrieve_product [("p1", 5)] "p2" 1 =
      ([("p1", 5)], some LedgerError.productNotFound) := by
  have h := retrieve_product_spec [("p1", 5)] "p1" 5 (by decide)
  have hs := h.2.2 5 (by decide) (by decide)
  have h2 := (retrieve_product_spec [("p1", 5)] "p2" 1 (by decide)).1 (by decide)
  exact ⟨hs.1, hs.2.1 (by decide), h2⟩

/-- C8: when `store(p, q)` succeeds on a ledger satisfying the
representation invariant (all entries positive), the following
`retrieve(p, q)` succeeds and returns the ledger to exactly its prior
mapping, including removing the entry when `p` was absent before. -/
theorem store_retrieve_roundtrip (capacity : Int) (d : Dict) (p : String)
    (q : Int) (hq : 0 < q) (hfit : totalQuantity d + q ≤ capacity)
    (hpos : ∀ kv ∈ d, 0 < kv.2) :
    (store_product capacity d p q).2 = none ∧
    retrieve_product (store_product capacity d p q).1 p q = (d, none) := by
  have hguard : ¬ totalQuantity d + q > capacity := not_lt.mpr hfit
  have hstore : store_product capacity d p q =
      (pySet d p (pyGetD d p + q), none) := by
    simp [store_product, not_le.mpr hq, hguard]
  refine ⟨by simp [hstore], ?_⟩
  rw [hstore]
  have hget : pyGet (pySet d p (pyGetD d p + q)) p = some (pyGetD d p + q) :=
    pyGet_pySet_self d p _
  have hd0 : 0 ≤ pyGetD d p := by
    cases hdp : pyGet d p with
    | none => simp [pyGetD, hdp]
    | some v =>
      have := hpos (p, v) (pyGet_mem d p v hdp)
      simp only [pyGetD, hdp, Option.getD_some]
      omega
  have hguard2 : ¬ q > pyGetD d p + q := by omega
  cases hdp : pyGet d p with
  | none =>
    have hgd : pyGetD d p = 0 := by simp [pyGetD, hdp]
    rw [hgd] at hget hguard2 ⊢
    have hz : (0 : Int) + q - q = 0 := by ring
    simp only [retrieve_product, hget, if_neg hguard2, if_pos hz, pySet_pySet, hz]
    rw [pyDel_pySet_of_absent d p 0 hdp]
    simp
  | some v =>
    have hv : 0 < v := hpos (p, v) (pyGet_mem d p v hdp)
    have hgd : pyGetD d p = v := by simp [pyGetD, hdp]
    have hz : pyGetD d p + q - q ≠ 0 := by omega
    simp only [retrieve_product, hget, if_neg hguard2, if_neg hz]
    rw [pySet_pySet]
    have : pyGetD d p + q - q = v := by omega
    rw [this, pySet_get_self d p v hdp]

/-- C8 witness: capacity 10, prior ledger holding 2 of `a`, storing 3 of
`b` and retrieving them restores the prior ledger exactly. -/
theorem store_retrieve_roundtrip_witness :
    (store_product 10 [("a", 2)] "b" 3).2 = none ∧
    retrieve_product (store_product 10 [("a", 2)] "b" 3).1 "b" 3 =
      ([("a", 2)], none) := by
  have h := store_retrieve_roundtrip 10 [("a", 2)] "b" 3 (by decide) (by decide)
    (by decide)
  exact h

/-- C9: `Order.__init__` creates the order with status Pending and
`get_order_value` returns quantity × unit price. -/
theorem order_init_spec (oid prod : String) (q : Int) (price : Rat) :
    (Order.init oid prod q price).status = "Pending" ∧
    get_order_value (Order.init oid prod q price) = q * price :=
  ⟨rfl, rfl⟩

/-- C10: the `Warehouse` wrappers catch every exception the underlying
`StorageUnit` operation can raise (`except Exception` covers ValueError
and Exception), so no error ever escapes to the caller and the call
returns normally on every input. -/
theorem warehouse_wrappers_never_raise (capacity : Int) (d : Dict)
    (p : String) (q : Int) :
    (warehouse_store capacity d p q).2 = none ∧
    (warehouse_retrieve d p q).2 = none := by
  constructor
  · simp only [warehouse_store]
    cases hr : (store_product capacity d p q).2 with
    | none => simp [hr]
    | some e => cases e <;> simp [hr, caught_by_except_clause]
  · simp only [warehouse_retrieve]
    cases hr : (retrieve_product d p q).2 with
    | none => simp [hr]
    | some e => cases e <;> simp [hr, caught_by_except_clause]

/-- C4 counterexample: contrary to the claim, `Order.update_status`
accepts the jump Pending → Delivered (a transition the spec table
forbids) because it only checks membership in the status list. -/
theorem update_status_pending_delivered :
    update_status "Pending" "Delivered" = ("Delivered", false) ∧
    spec_transition_allowed "Pending" "Delivered" = false := by
  constructor
  · rfl
  · decide

/-- C4 amended: `update_status` validates only that the new status is
one of the five listed strings — the check is independent of the
current status, so any listed status (Delivered included) is accepted
from any state, and only an unlisted string raises ValueError. -/
theorem update_status_spec (status new_status : String) :
    (update_status status new_status = (new_status, false) ↔
      new_status ∈ valid_statuses) ∧
    (update_status status new_status = (status, true) ↔
      new_status ∉ valid_statuses) := by
  by_cases hmem : new_status ∈ valid_statuses
  · simp [update_status, hmem]
  · simp [update_status, hmem]

/-- C4 witness: "Delivered" is a listed status, so from "Pending" the
update succeeds; an unlisted string is rejected. -/
theorem update_status_spec_witness :
    update_status "Pending" "Delivered" = ("Delivered", false) ∧
    update_status "Pending" "Refunded" = ("Pending", true) := by
  constructor
  · exact (update_status_spec "Pending" "Delivered").1.mpr (by decide)
  · exact (update_status_spec "Pending" "Refunded").2.mpr (by decide)

/-- C5: `Distributor.distribute_product` together with the receiver's
`receive_product` conserves total stock across the two inventories for
every positive order quantity (an order's quantity is positive by the
data model), whether the transfer succeeds or fails. -/
theorem distribute_product_conserves (dist retailer : Dict) (p : String)
    (q : Int) (hq : 0 < q) :
    totalQuantity (distribute_product dist retailer p q).1 +
      totalQuantity (distribute_product dist retailer p q).2 =
    totalQuantity dist + totalQuantity retailer := by
  have hrecv : totalQuantity (dist_receive_product retailer p q) =
      totalQuantity retailer + q := by
    simp only [dist_receive_product, if_neg (not_le.mpr hq)]
    by_cases hs : (pyGet retailer p).isSome
    · rw [if_pos hs, totalQuantity_pySet]
      ring
    · rw [if_neg hs, totalQuantity_pySet]
      have hn : pyGet retailer p = none := Option.not_isSome_iff_eq_none.mp hs
      simp [pyGetD, hn]
  cases hget : pyGet dist p with
  | none => simp [distribute_product, hget]
  | some held =>
    by_cases hle : q ≤ held
    · have hgd : pyGetD dist p = held := by simp [pyGetD, hget]
      have hd1 : totalQuantity (pySet dist p (held - q)) =
          totalQuantity dist - q := by
        rw [totalQuantity_pySet, hgd]
        ring
      have hg1 : pyGetD (pySet dist p (held - q)) p = held - q := by
        simp [pyGetD, pyGet_pySet_self]
      by_cases hz : pyGetD (pySet dist p (held - q)) p = 0
      · have hdel : totalQuantity (pyDel (pySet dist p (held - q)) p) =
            totalQuantity dist - q := by
          rw [totalQuantity_pyDel, hz, hd1]
          ring
        simp only [distribute_product, hget, if_pos hle, if_pos hz]
        rw [hdel, hrecv]
        ring
      · simp only [distribute_product, hget, if_pos hle, if_neg hz]
        rw [hd1, hrecv]
        ring
    · simp [distribute_product, hget, hle]

/-- C5 witness: moving 2 of `p1` out of a source holding 3 keeps the
combined total at 4; a failing transfer (source lacks `p9`) also keeps
it. -/
theorem distribute_product_conserves_witness :
    totalQuantity (distribute_product [("p1", 3)] [("p2", 1)] "p1" 2).1 +
      totalQuantity (distribute_product [("p1", 3)] [("p2", 1)] "p1" 2).2 =
      totalQuantity [("p1", 3)] + totalQuantity [("p2", 1)] ∧
    totalQuantity (distribute_product [("p1", 3)] [("p2", 1)] "p9" 2).1 +
      totalQuantity (distribute_product [("p1", 3)] [("p2", 1)] "p9" 2).2 =
      totalQuantity [("p1", 3)] + totalQuantity [("p2", 1)] :=
  ⟨distribute_product_conserves [("p1", 3)] [("p2", 1)] "p1" 2 (by decide),
   distribute_product_conserves [("p1", 3)] [("p2", 1)] "p9" 2 (by decide)⟩

/-- C6: when the source inventory holds fewer occurrences of the
product than the ordered quantity (including none at all),
`Distributor.distribute_product` of FinancialBase.py leaves both
inventories unchanged and sets the order status to Cancelled; the
method body is inside try/except, so the caller sees no exception, only
the order's terminal state. -/
theorem fb_distribute_insufficient (inv stock : List String) (car : String)
    (quantity : Nat) (h : inv.count car < quantity) :
    fb_distribute_product inv stock car quantity = (inv, stock, "Cancelled") := by
  simp [fb_distribute_product, not_le.mpr h]

/-- C6 witness: the spec scenario — the source holds 5 of `p2`, an
order for 10 of `p2` is cancelled, the source still holds its 5 and the
destination is unchanged. -/
theorem fb_distribute_insufficient_witness :
    fb_distribute_product ["p2", "p2", "p2", "p2", "p2"] ["q1"] "p2" 10 =
      (["p2", "p2", "p2", "p2", "p2"], ["q1"], "Cancelled") :=
  fb_distribute_insufficient _ _ _ _ (by decide)

/-- C7 counterexample: `remove_expired_if_full` returns `None` on every
input — at the spec scenario (ledger at capacity 7, expired `p1`, fresh
`p2`) it removes and prints `p1`, yet its Python return value is
identical to that of a run that removes nothing, so the removed ids are
not returned to the caller. -/
theorem remove_expired_returns_none :
    (remove_expired_if_full
      [("p1", ⟨3, some 5⟩), ("p2", ⟨4, none⟩)] 7 10).2.2 = ["p1"] ∧
    (remove_expired_if_full [("p3", ⟨1, some 5⟩)] 7 10).2.2 = [] ∧
    (remove_expired_if_full
      [("p1", ⟨3, some 5⟩), ("p2", ⟨4, none⟩)] 7 10).1 =
      (remove_expired_if_full [("p3", ⟨1, some 5⟩)] 7 10).1 :=
  ⟨by decide, by decide, rfl⟩

/-- C7 amended: `remove_expired_if_full` is a no-op (and prints no
removed id) when the inventory is not full — empty, or total strictly
below capacity; when full it removes exactly the entries whose expiry
date is strictly before the reference date, never an entry without an
expiry date, and prints — rather than returns — the removed product
ids, the method's return value being `None`. -/
theorem remove_expired_spec (inv : ExpDict) (capacity today : Int) :
    (remove_expired_if_full inv capacity today).1 = Unit.unit ∧
    (is_inventory_full inv capacity = false →
      remove_expired_if_full inv capacity today = (Unit.unit, inv, [])) ∧
    (is_inventory_full inv capacity = true →
      (∀ kv : String × StockItem,
        kv ∈ (remove_expired_if_full inv capacity today).2.1 ↔
          kv ∈ inv ∧ entry_is_expired today kv.2 = false) ∧
      (∀ pid, pid ∈ (remove_expired_if_full inv capacity today).2.2 ↔
        ∃ item, (pid, item) ∈ inv ∧ entry_is_expired today item = true)) := by
  refine ⟨rfl, fun hnot => ?_, fun hfull => ⟨fun kv => ?_, fun pid => ?_⟩⟩
  · simp [remove_expired_if_full, hnot]
  · simp only [remove_expired_if_full, hfull]
    simp [List.mem_filter]
  · simp only [remove_expired_if_full, hfull]
    simp only [Bool.true_eq_false, if_false, List.mem_map, List.mem_filter]
    constructor
    · rintro ⟨⟨k, item⟩, ⟨hmem, hexp⟩, rfl⟩
      exact ⟨item, hmem, hexp⟩
    · rintro ⟨item, hmem, hexp⟩
      exact ⟨(pid, item), ⟨hmem, hexp⟩, rfl⟩

/-- C7 witness: the spec scenario — a ledger at capacity with one
expired and one non-expired entry: `p1` is removed and printed, `p2`
is kept and not printed. -/
theorem remove_expired_spec_witness :
    ("p1" ∈ (remove_expired_if_full
      [("p1", ⟨3, some 5⟩), ("p2", ⟨4, none⟩)] 7 10).2.2) ∧
    (("p2", (⟨4, none⟩ : StockItem)) ∈ (remove_expired_if_full
      [("p1", ⟨3, some 5⟩), ("p2", ⟨4, none⟩)] 7 10).2.1) ∧
    ¬ ("p2" ∈ (remove_expired_if_full
      [("p1", ⟨3, some 5⟩), ("p2", ⟨4, none⟩)] 7 10).2.2) := by
  have h := remove_expired_spec [("p1", ⟨3, some 5⟩), ("p2", ⟨4, none⟩)] 7 10
  have hfull := h.2.2 (by decide)
  refine ⟨?_, ?_, ?_⟩
  · exact (hfull.2 "p1").mpr ⟨⟨3, some 5⟩, by decide, by decide⟩
  · exact (hfull.1 ("p2", ⟨4, none⟩)).mpr ⟨by decide, by decide⟩
  · intro hmem
    obtain ⟨item, hin, hexp⟩ := (hfull.2 "p2").mp hmem
    simp only [List.mem_cons, List.not_mem_nil, or_false] at hin
    rcases hin with h1 | h1
    · injection h1 with ha hb
      exact absurd ha (by decide)
    · injection h1 with ha hb
      rw [hb] at hexp
      exact absurd hexp (by decide)

/-- C3 counterexample: starting empty with capacity 100, a successful
`store(p1, 60)` followed by `retrieve(p1, -50)` — which the code
accepts, having no positivity check — leaves the ledger total at 110,
strictly above the capacity. -/
theorem runOps_capacity_violated :
    totalQuantity (runOps 100 []
      [LedgerOp.store "p1" 60, LedgerOp.retrieve "p1" (-50)]) = 110 ∧
    (110 : Int) > 100 := by decide

/-- One step preserves the ledger invariant, provided a retrieve call
uses a positive quantity. -/
theorem applyOp_invariant (capacity : Int) (d : Dict) (op : LedgerOp)
    (hop : opPositive op)
    (h1 : totalQuantity d ≤ capacity)
    (h2 : ∀ kv ∈ d, 0 < kv.2)
    (h3 : (d.map Prod.fst).Nodup) :
    totalQuantity (applyOp capacity d op) ≤ capacity ∧
    (∀ kv ∈ applyOp capacity d op, 0 < kv.2) ∧
    ((applyOp capacity d op).map Prod.fst).Nodup := by
  cases op with
  | store p q =>
    by_cases hq : q ≤ 0
    · simp only [applyOp, store_product, if_pos hq]
      exact ⟨h1, h2, h3⟩
    · by_cases hover : totalQuantity d + q > capacity
      · simp only [applyOp, store_product, if_neg hq, if_pos hover]
        exact ⟨h1, h2, h3⟩
      · simp only [applyOp, store_product, if_neg hq, if_neg hover]
        have hgd : 0 ≤ pyGetD d p := by
          cases hdp : pyGet d p with
          | none => simp [pyGetD, hdp]
          | some v =>
            have := h2 (p, v) (pyGet_mem d p v hdp)
            simp only [pyGetD, hdp, Option.getD_some]
            omega
        refine ⟨?_, fun kv hkv => ?_, nodup_keys_pySet d p _ h3⟩
        · rw [totalQuantity_pySet]
          simp only [pyGetD] at hgd ⊢
          omega
        · rcases mem_pySet d p _ kv hkv with rfl | hmem
          · show 0 < pyGetD d p + q
            omega
          · exact h2 kv hmem
  | retrieve p q =>
    have hq : 0 < q := hop
    cases hdp : pyGet d p with
    | none =>
      simp only [applyOp, retrieve_product, hdp]
      exact ⟨h1, h2, h3⟩
    | some held =>
      by_cases hgt : q > held
      · simp only [applyOp, retrieve_product, hdp, if_pos hgt]
        exact ⟨h1, h2, h3⟩
      · have hheld : 0 < held := by omega
        have hgd : pyGetD d p = held := by simp [pyGetD, hdp]
        by_cases hz : held - q = 0
        · simp only [applyOp, retrieve_product, hdp, if_neg hgt, if_pos hz]
          refine ⟨?_, fun kv hkv => ?_,
            nodup_keys_pyDel _ p (nodup_keys_pySet d p _ h3)⟩
          · rw [totalQuantity_pyDel, totalQuantity_pySet]
            simp only [pyGetD, pyGet_pySet_self, hdp, Option.getD_some]
            omega
          · have hmem1 := mem_pyDel _ p kv hkv
            rcases mem_pySet d p _ kv hmem1 with rfl | hmem
            · exact absurd hkv
                (not_mem_pyDel_self _ p _ (nodup_keys_pySet d p _ h3))
            · exact h2 kv hmem
        · simp only [applyOp, retrieve_product, hdp, if_neg hgt, if_neg hz]
          refine ⟨?_, fun kv hkv => ?_, nodup_keys_pySet d p _ h3⟩
          · rw [totalQuantity_pySet]
            simp only [pyGetD, hdp, Option.getD_some] at hgd ⊢
            omega
          · rcases mem_pySet d p _ kv hkv with rfl | hmem
            · show 0 < held - q
              omega
            · exact h2 kv hmem

/-- The invariant holds along any run from an invariant state. -/
theorem runOps_invariant_from (capacity : Int) (ops : List LedgerOp)
    (hops : ∀ op ∈ ops, opPositive op) (d : Dict)
    (h1 : totalQuantity d ≤ capacity) (h2 : ∀ kv ∈ d, 0 < kv.2)
    (h3 : (d.map Prod.fst).Nodup) :
    totalQuantity (runOps capacity d ops) ≤ capacity ∧
    (∀ kv ∈ runOps capacity d ops, 0 < kv.2) := by
  induction ops generalizing d with
  | nil => exact ⟨h1, h2⟩
  | cons op rest ih =>
    have hstep := applyOp_invariant capacity d op
      (hops op (List.mem_cons_self _ _)) h1 h2 h3
    exact ih (fun o ho => hops o (List.mem_cons_of_mem _ ho)) _
      hstep.1 hstep.2.1 hstep.2.2

/-- C3 amended: for every nonnegative capacity and every sequence of
store and retrieve calls from the empty ledger in which each retrieve
uses a positive quantity, every reachable state keeps the total held
quantity within the capacity and every entry strictly positive.  (The
unamended claim fails: the code accepts negative retrieve quantities,
which can push the total above capacity.) -/
theorem runOps_invariant (capacity : Int) (hcap : 0 ≤ capacity)
    (ops : List LedgerOp) (hops : ∀ op ∈ ops, opPositive op) :
    totalQuantity (runOps capacity [] ops) ≤ capacity ∧
    (∀ kv ∈ runOps capacity [] ops, 0 < kv.2) :=
  runOps_invariant_from capacity ops hops []
    (by simpa [totalQuantity] using hcap) (by simp) (by simp)

/-- C3 witness: capacity 100, store 60 then retrieve 20 — the final
state respects the invariant. -/
theorem runOps_invariant_witness :
    totalQuantity (runOps 100 []
      [LedgerOp.store "p1" 60, LedgerOp.retrieve "p1" 20]) ≤ 100 ∧
    (∀ kv ∈ runOps 100 []
      [LedgerOp.store "p1" 60, LedgerOp.retrieve "p1" 20], 0 < kv.2) :=
  runOps_invariant 100 (by decide)
    [LedgerOp.store "p1" 60, LedgerOp.retrieve "p1" 20]
    (by
      intro op hop
      simp only [List.mem_cons, List.not_mem_nil, or_false] at hop
      rcases hop with rfl | rfl
      · exact trivial
      · exact (by decide : (0 : Int) < 20))

end SupplyChain
